import Mathlib

/-!
Verification of the sfaira estimator core (`sfaira/estimators/keras.py`) against its
natural-language specification.

The matrices of the pipeline are shallowly embedded as shape-annotated entry functions
over `ℚ` (the code's float entries are exact rationals here; sparse/dense storage is a
representation detail that does not change entry values).  Python lists of identifiers
become `List String`, `list.index` becomes `List.indexOf`, `x in list` becomes list
membership, and numpy fancy column assignment becomes a left-to-right sequence of
single-column writes.  Fallible code returns `Except String`.
-/

namespace Sfaira

/-- A matrix column: entries indexed by row number. -/
def Col : Type := ℕ → ℚ

/-- Shallowly embedded (sparse or dense) matrix: a shape plus an entry function.
Entries outside the declared shape are irrelevant to the embedded operations. -/
structure SMat where
  rows : ℕ
  cols : ℕ
  entry : ℕ → ℕ → ℚ

/-- Overwrite one column: `x[:, j] = c`. -/
def setCol (m : SMat) (j : ℕ) (c : Col) : SMat :=
  { m with entry := fun r j2 => if j2 = j then c r else m.entry r j2 }

/-- Fancy column assignment `x[:, targets] = src`, modelled as a left-to-right
sequence of single-column writes (one write per (target, source-column) pair). -/
def assignCols (m : SMat) (ps : List (ℕ × Col)) : SMat :=
  ps.foldl (fun acc p => setCol acc p.1 p.2) m

@[simp] theorem assignCols_nil (m : SMat) : assignCols m [] = m := rfl

theorem assignCols_cons (m : SMat) (p : ℕ × Col) (ps : List (ℕ × Col)) :
    assignCols m (p :: ps) = assignCols (setCol m p.1 p.2) ps := rfl

theorem assignCols_append (m : SMat) (ps qs : List (ℕ × Col)) :
    assignCols m (ps ++ qs) = assignCols (assignCols m ps) qs := by
  simp [assignCols, List.foldl_append]

/-- The loop `for i in range(0, len(ps), s+1): x_new[:, map[i:i+s+1]] = x[:, i:i+s+1]`
of `_prepare_data_matrix`, as structural recursion over the remaining pairs: each
iteration assigns the next `s+1` columns.  The code's post-loop remainder line
`x_new[:, idx_feature_map[i+step:]] = x[:, i+step:]` assigns the slice past the final
loop index, which is empty (the last loop start `i` satisfies `i + step ≥ len`), i.e.
it is the no-op `assignCols m []`; the recursion terminates at the same point. -/
def chunkLoop (s : ℕ) (m : SMat) : List (ℕ × Col) → SMat
  | [] => m
  | p :: ps => chunkLoop s (assignCols m (p :: ps.take s)) (ps.drop s)
termination_by ps => ps.length
decreasing_by simp [List.length_drop]; omega

/-- The chunked column copy of `_prepare_data_matrix`:
`if step < len(idx_feature_map):` loop over chunks of `step` columns (plus the empty
remainder assignment) `else:` one bulk assignment.  For `step ≥ 1`, `chunkLoop (step-1)`
performs exactly the loop's chunks of width `step`. -/
def chunkedCopy (step : ℕ) (m : SMat) (ps : List (ℕ × Col)) : SMat :=
  if step < ps.length then chunkLoop (step - 1) m ps else assignCols m ps

theorem chunkLoop_eq_assignCols (s : ℕ) :
    ∀ (n : ℕ) (ps : List (ℕ × Col)), ps.length ≤ n →
      ∀ m : SMat, chunkLoop s m ps = assignCols m ps := by
  intro n
  induction n with
  | zero =>
    intro ps h m
    have : ps = [] := List.eq_nil_of_length_eq_zero (Nat.le_zero.mp h)
    subst this
    rw [chunkLoop]; rfl
  | succ n ih =>
    intro ps h m
    match ps with
    | [] => rw [chunkLoop]; rfl
    | p :: ps' =>
      rw [chunkLoop]
      rw [ih (ps'.drop s) (by simp only [List.length_drop]; simp at h; omega)]
      rw [← assignCols_append]
      congr 1
      have : p :: (ps'.take s ++ ps'.drop s) = p :: ps' := by
        rw [List.take_append_drop]
      simp only [List.cons_append] at this ⊢
      exact this

theorem chunkedCopy_eq_assignCols (step : ℕ) (m : SMat) (ps : List (ℕ × Col)) :
    chunkedCopy step m ps = assignCols m ps := by
  unfold chunkedCopy
  split
  · exact chunkLoop_eq_assignCols _ ps.length ps le_rfl m
  · rfl

theorem chunkedCopy_rows (step : ℕ) (m : SMat) (ps : List (ℕ × Col)) :
    (chunkedCopy step m ps).rows = m.rows := by
  rw [chunkedCopy_eq_assignCols]
  induction ps generalizing m with
  | nil => rfl
  | cons p ps ih => rw [assignCols_cons, ih]; rfl

theorem chunkedCopy_cols (step : ℕ) (m : SMat) (ps : List (ℕ × Col)) :
    (chunkedCopy step m ps).cols = m.cols := by
  rw [chunkedCopy_eq_assignCols]
  induction ps generalizing m with
  | nil => rfl
  | cons p ps ih => rw [assignCols_cons, ih]; rfl

/-- Entry of a fancy assignment when the target columns are pairwise distinct: the
(unique) pair hitting column `j` decides the value, otherwise the base matrix does. -/
theorem assignCols_entry_of_nodup (ps : List (ℕ × Col))
    (hnd : (ps.map Prod.fst).Nodup) (m : SMat) (r j : ℕ) :
    (assignCols m ps).entry r j =
      match ps.find? (fun p => p.1 == j) with
      | some p => p.2 r
      | none => m.entry r j := by
  induction ps generalizing m with
  | nil => rfl
  | cons p ps ih =>
    rw [assignCols_cons]
    simp only [List.map_cons, List.nodup_cons] at hnd
    rw [ih hnd.2]
    by_cases hj : p.1 = j
    · subst hj
      have hnone : ps.find? (fun q => q.1 == p.1) = none := by
        rw [List.find?_eq_none]
        intro q hq
        simp only [beq_iff_eq]
        intro hcontra
        exact hnd.1 (hcontra ▸ List.mem_map_of_mem Prod.fst hq)
      rw [hnone]
      have hfind : List.find? (fun q => q.1 == p.1) (p :: ps) = some p := by
        rw [List.find?_cons_of_pos _ (by simp)]
      rw [hfind]
      simp [setCol]
    · have : List.find? (fun q => q.1 == j) (p :: ps) = List.find? (fun q => q.1 == j) ps := by
        rw [List.find?_cons_of_neg _ (by simp [hj])]
      rw [this]
      cases hf : ps.find? (fun q => q.1 == j) with
      | some q => rfl
      | none =>
        simp only [setCol]
        rw [if_neg (fun hc => hj hc.symm)]

/-! ### Feature remapper (`EstimatorKeras._prepare_data_matrix`) -/

/-- `idx_feature_kept = np.where([x in ensembl for x in data_ids])[0]`:
positions (ascending) of input identifiers present in the reference. -/
def keptIdx (dataIds ref : List String) : List ℕ :=
  (List.range dataIds.length).filter (fun i => decide (dataIds.getD i "" ∈ ref))

/-- `idx_feature_map = [ensembl.index(x) for x in data_ids[idx_feature_kept]]`:
reference position (first occurrence) of each kept identifier. -/
def mapIdx (dataIds ref : List String) : List ℕ :=
  (keptIdx dataIds ref).map (fun i => ref.indexOf (dataIds.getD i ""))

/-- The remap core of `_prepare_data_matrix` (non-short-circuit path): drop unmapped
columns (`x = x[:, idx_feature_kept]`), allocate the `ngenes`-wide zero matrix, and
copy the kept columns to their target positions with the chunked copy (`step = 2000`). -/
def remap (x : SMat) (dataIds ref : List String) : SMat :=
  let kept := keptIdx dataIds ref
  let tpos := mapIdx dataIds ref
  let xk : SMat := { rows := x.rows, cols := kept.length,
                     entry := fun r j => x.entry r (kept.getD j 0) }
  let pairs : List (ℕ × Col) :=
    (List.range tpos.length).map (fun j => (tpos.getD j 0, fun r => xk.entry r j))
  chunkedCopy 2000 { rows := x.rows, cols := ref.length, entry := fun _ _ => 0 } pairs

/-- `x = x[idx, :]`: keep only the observations in `idx` (in the order of `idx`). -/
def rowSlice (X : SMat) (idx : List ℕ) : SMat :=
  { rows := idx.length, cols := X.cols, entry := fun r c => X.entry (idx.getD r 0) c }

/-- The in-memory (`filename is None`) body of `_prepare_data_matrix`: row-slice, then
either the `mapped_features` short-circuit (source already declares the target
reference) or the remap.  (The csr/csc conversions are identity on entry values, and
the NaN-to-zero coercion is identity on this exact-number model, so neither appears.) -/
def prepareDataMatrixMem (X : SMat) (idx : List ℕ)
    (mappedFeatures : Bool) (dataIds ref : List String) : SMat :=
  let x := rowSlice X idx
  if mappedFeatures then x else remap x dataIds ref

/-- `EstimatorKeras._prepare_data_matrix`: raise for backed anndata, else the
in-memory body. -/
def prepareDataMatrix (backed : Bool) (X : SMat) (idx : List ℕ)
    (mappedFeatures : Bool) (dataIds ref : List String) : Except String SMat :=
  if backed then
    Except.error "tried running backed anndata object through standard pipeline"
  else
    Except.ok (prepareDataMatrixMem X idx mappedFeatures dataIds ref)

theorem mem_keptIdx {dataIds ref : List String} {i : ℕ} :
    i ∈ keptIdx dataIds ref ↔ i < dataIds.length ∧ dataIds.getD i "" ∈ ref := by
  simp [keptIdx, List.mem_filter, List.mem_range]

theorem keptIdx_nodup (dataIds ref : List String) : (keptIdx dataIds ref).Nodup :=
  (List.nodup_range _).filter _

/-- `l.index(a)` retrieves `a`: `l[l.index(a)] = a` (stated via `getD`). -/
theorem getD_indexOf_self {α : Type} [DecidableEq α] (l : List α) (d : α) {a : α}
    (h : a ∈ l) : l.getD (l.indexOf a) d = a := by
  have hlt := List.indexOf_lt_length.mpr h
  rw [List.getD_eq_getElem l d hlt]
  exact List.getElem_indexOf hlt

/-- On a duplicate-free list, `l.index(l[j]) = j`. -/
theorem indexOf_getD_self {α : Type} [DecidableEq α] {l : List α} (d : α)
    (h : l.Nodup) {j : ℕ} (hj : j < l.length) : l.indexOf (l.getD j d) = j := by
  rw [List.getD_eq_getElem l d hj]
  exact List.indexOf_getElem h j hj

/-- On a duplicate-free list, equal entries have equal positions. -/
theorem getD_inj {α : Type} [DecidableEq α] {l : List α} (d : α) (h : l.Nodup)
    {a b : ℕ} (ha : a < l.length) (hb : b < l.length)
    (heq : l.getD a d = l.getD b d) : a = b := by
  rw [List.getD_eq_getElem l d ha, List.getD_eq_getElem l d hb] at heq
  exact (h.getElem_inj_iff).mp heq

theorem getD_mem {α : Type} (l : List α) (d : α) {a : ℕ} (ha : a < l.length) :
    l.getD a d ∈ l := by
  rw [List.getD_eq_getElem l d ha]
  exact List.getElem_mem _

theorem mapIdx_nodup (dataIds ref : List String)
    (href : ref.Nodup) (hids : dataIds.Nodup) : (mapIdx dataIds ref).Nodup := by
  apply (keptIdx_nodup dataIds ref).map_on
  intro a ha b hb hab
  obtain ⟨haLen, haMem⟩ := mem_keptIdx.mp ha
  obtain ⟨hbLen, hbMem⟩ := mem_keptIdx.mp hb
  have hid : dataIds.getD a "" = dataIds.getD b "" := by
    have h1 := getD_indexOf_self ref "" haMem
    have h2 := getD_indexOf_self ref "" hbMem
    rw [← h1, ← h2, hab]
  exact getD_inj "" hids haLen hbLen hid

/-- Realize a list as a `getD` map over the range of its positions. -/
theorem map_getD_range (l : List ℕ) :
    (List.range l.length).map (fun j => l.getD j 0) = l := by
  apply List.ext_getElem
  · simp
  · intro i h1 h2
    simp only [List.getElem_map, List.getElem_range]
    exact List.getD_eq_getElem l 0 h2

/-- C1 column characterization of the feature remap: for every reference position `j`,
the output column `j` is the input column of the identifier `ref[j]` when that
identifier occurs in the input feature list, and the zero column otherwise. -/
theorem remap_entry (x : SMat) (dataIds ref : List String)
    (href : ref.Nodup) (hids : dataIds.Nodup) (j : ℕ) (hj : j < ref.length) :
    (ref.getD j "" ∈ dataIds →
      ∀ r, (remap x dataIds ref).entry r j = x.entry r (dataIds.indexOf (ref.getD j ""))) ∧
    (ref.getD j "" ∉ dataIds → ∀ r, (remap x dataIds ref).entry r j = 0) := by
  have hlen : (mapIdx dataIds ref).length = (keptIdx dataIds ref).length :=
    List.length_map _ _
  set kept := keptIdx dataIds ref with hkept
  set tpos := mapIdx dataIds ref with htpos
  set pairs : List (ℕ × Col) :=
    (List.range tpos.length).map
      (fun k => (tpos.getD k 0, fun r => x.entry r (kept.getD k 0))) with hpairs
  have hremap : ∀ r c, (remap x dataIds ref).entry r c =
      (assignCols { rows := x.rows, cols := ref.length, entry := fun _ _ => 0 } pairs).entry r c := by
    intro r c
    rw [remap, chunkedCopy_eq_assignCols]
  have hkeys : pairs.map Prod.fst = tpos := by
    rw [hpairs, List.map_map]
    exact map_getD_range tpos
  have hnd : (pairs.map Prod.fst).Nodup := by
    rw [hkeys]; exact mapIdx_nodup dataIds ref href hids
  -- every pair is indexed by a position k < tpos.length
  have hpair_shape : ∀ p ∈ pairs, ∃ k, k < tpos.length ∧
      p = (tpos.getD k 0, fun r => x.entry r (kept.getD k 0)) := by
    intro p hp
    rw [hpairs] at hp
    obtain ⟨k, hk, hpe⟩ := List.mem_map.mp hp
    exact ⟨k, List.mem_range.mp hk, hpe.symm⟩
  -- the value of tpos at a valid position
  have htpos_val : ∀ k, k < tpos.length →
      tpos.getD k 0 = ref.indexOf (dataIds.getD (kept.getD k 0) "") := by
    intro k hk
    have hk' : k < kept.length := by rw [← hlen]; exact hk
    rw [List.getD_eq_getElem tpos 0 hk, List.getD_eq_getElem kept 0 hk']
    simp [htpos, mapIdx, ← hkept]
  have hkept_facts : ∀ k, k < kept.length →
      kept.getD k 0 < dataIds.length ∧ dataIds.getD (kept.getD k 0) "" ∈ ref := by
    intro k hk
    exact mem_keptIdx.mp (hkept ▸ getD_mem kept 0 hk)
  have hrefj_mem : ref.getD j "" ∈ ref := getD_mem ref "" hj
  constructor
  · -- ref[j] occurs in the input identifiers
    intro hmem r
    rw [hremap, assignCols_entry_of_nodup pairs hnd]
    have hi0lt : dataIds.indexOf (ref.getD j "") < dataIds.length :=
      List.indexOf_lt_length.mpr hmem
    have hi0val : dataIds.getD (dataIds.indexOf (ref.getD j "")) "" = ref.getD j "" :=
      getD_indexOf_self dataIds "" hmem
    -- the position of ref[j] in dataIds is kept, so some pair targets j
    have hi0kept : dataIds.indexOf (ref.getD j "") ∈ kept := by
      rw [hkept]
      refine mem_keptIdx.mpr ⟨hi0lt, ?_⟩
      rw [hi0val]
      exact hrefj_mem
    obtain ⟨k0, hk0, hk0v⟩ := List.mem_iff_getElem.mp hi0kept
    have hk0d : kept.getD k0 0 = dataIds.indexOf (ref.getD j "") := by
      rw [List.getD_eq_getElem kept 0 hk0]
      exact hk0v
    have hk0t : k0 < tpos.length := by rw [hlen]; exact hk0
    have hhit : (tpos.getD k0 0, fun r => x.entry r (kept.getD k0 0)) ∈ pairs := by
      rw [hpairs]
      exact List.mem_map.mpr ⟨k0, List.mem_range.mpr hk0t, rfl⟩
    have hhit_fst : tpos.getD k0 0 = j := by
      rw [htpos_val k0 hk0t, hk0d, hi0val]
      exact indexOf_getD_self "" href hj
    cases hf : pairs.find? (fun p => p.1 == j) with
    | none =>
      exact absurd (beq_iff_eq.mpr hhit_fst) (List.find?_eq_none.mp hf _ hhit)
    | some q =>
      have hq_mem : q ∈ pairs := List.mem_of_find?_eq_some hf
      have hq_fst : q.1 = j := by
        have := List.find?_some hf
        simpa using this
      obtain ⟨k, hkt, hqe⟩ := hpair_shape q hq_mem
      have hkk : k < kept.length := by rw [← hlen]; exact hkt
      obtain ⟨hklen, hkmem⟩ := hkept_facts k hkk
      -- the identifier of the found pair's source column is ref[j]
      have hkid : dataIds.getD (kept.getD k 0) "" = ref.getD j "" := by
        have h1 : ref.indexOf (dataIds.getD (kept.getD k 0) "") = j := by
          rw [← htpos_val k hkt]
          rw [hqe] at hq_fst
          exact hq_fst
        have h2 := getD_indexOf_self ref "" hkmem
        rw [h1] at h2
        exact h2.symm
      have hkpos : kept.getD k 0 = dataIds.indexOf (ref.getD j "") :=
        getD_inj "" hids hklen hi0lt (hkid.trans hi0val.symm)
      rw [hqe]
      exact congrArg (x.entry r) hkpos
  · -- ref[j] does not occur in the input identifiers: no pair targets j
    intro hmem r
    rw [hremap, assignCols_entry_of_nodup pairs hnd]
    have hnone : pairs.find? (fun p => p.1 == j) = none := by
      rw [List.find?_eq_none]
      intro p hp
      obtain ⟨k, hkt, hpe⟩ := hpair_shape p hp
      have hkk : k < kept.length := by rw [← hlen]; exact hkt
      obtain ⟨hklen, hkmem⟩ := hkept_facts k hkk
      simp only [hpe, beq_iff_eq]
      intro hfst
      rw [htpos_val k hkt] at hfst
      have hval := getD_indexOf_self ref "" hkmem
      rw [hfst] at hval
      apply hmem
      rw [hval]
      exact getD_mem dataIds "" hklen
    rw [hnone]

theorem remap_cols (x : SMat) (dataIds ref : List String) :
    (remap x dataIds ref).cols = ref.length :=
  chunkedCopy_cols _ _ _

/-- Whether an `Except` result is a success. -/
def isOkE {α : Type} (e : Except String α) : Bool :=
  match e with
  | Except.ok _ => true
  | Except.error _ => false

/-- C1: feature remap round-trip.  On the non-short-circuit path,
`_prepare_data_matrix` succeeds with a matrix of exactly `N_ref = ref.length` columns;
for every reference position `j`, column `j` equals the input column of identifier
`ref[j]` when that identifier occurs in the input feature list, and is zero otherwise
(so a column is nonzero only if its reference identifier occurs in the input). -/
theorem prepare_data_matrix_round_trip (X : SMat) (idx : List ℕ) (dataIds ref : List String)
    (href : ref.Nodup) (hids : dataIds.Nodup) :
    prepareDataMatrix false X idx false dataIds ref =
      Except.ok (remap (rowSlice X idx) dataIds ref) ∧
    (remap (rowSlice X idx) dataIds ref).cols = ref.length ∧
    ∀ j, j < ref.length →
      ((ref.getD j "" ∈ dataIds →
        ∀ r, (remap (rowSlice X idx) dataIds ref).entry r j =
          (rowSlice X idx).entry r (dataIds.indexOf (ref.getD j ""))) ∧
       (ref.getD j "" ∉ dataIds →
        ∀ r, (remap (rowSlice X idx) dataIds ref).entry r j = 0)) :=
  ⟨rfl, remap_cols _ _ _, fun j hj => remap_entry (rowSlice X idx) dataIds ref href hids j hj⟩

theorem prepare_data_matrix_round_trip_witness :
    (["b", "c"] : List String).Nodup ∧ (["a", "b"] : List String).Nodup ∧
    (prepareDataMatrix false ⟨2, 2, fun r c => (r * 10 + c : ℚ)⟩ [0, 1] false ["a", "b"] ["b", "c"] =
      Except.ok (remap (rowSlice ⟨2, 2, fun r c => (r * 10 + c : ℚ)⟩ [0, 1]) ["a", "b"] ["b", "c"]) ∧
    (remap (rowSlice ⟨2, 2, fun r c => (r * 10 + c : ℚ)⟩ [0, 1]) ["a", "b"] ["b", "c"]).cols =
      (["b", "c"] : List String).length ∧
    ∀ j, j < (["b", "c"] : List String).length →
      (((["b", "c"] : List String).getD j "" ∈ (["a", "b"] : List String) →
        ∀ r, (remap (rowSlice ⟨2, 2, fun r c => (r * 10 + c : ℚ)⟩ [0, 1]) ["a", "b"] ["b", "c"]).entry r j =
          (rowSlice ⟨2, 2, fun r c => (r * 10 + c : ℚ)⟩ [0, 1]).entry r
            ((["a", "b"] : List String).indexOf ((["b", "c"] : List String).getD j ""))) ∧
       ((["b", "c"] : List String).getD j "" ∉ (["a", "b"] : List String) →
        ∀ r, (remap (rowSlice ⟨2, 2, fun r c => (r * 10 + c : ℚ)⟩ [0, 1]) ["a", "b"] ["b", "c"]).entry r j = 0))) :=
  ⟨by decide, by decide,
   prepare_data_matrix_round_trip ⟨2, 2, fun r c => (r * 10 + c : ℚ)⟩ [0, 1] ["a", "b"] ["b", "c"]
     (by decide) (by decide)⟩

/-- C2: chunked-copy equivalence.  The chunked column copy (the loop branch together
with its empty post-loop remainder assignment) produces the same matrix for every
chunk size `≥ 1` (2000, 1, or any other) and equals the single bulk assignment. -/
theorem chunked_copy_equivalence (s1 s2 : ℕ) (m : SMat) (ps : List (ℕ × Col))
    (h1 : 1 ≤ s1) (h2 : 1 ≤ s2) :
    chunkedCopy s1 m ps = chunkedCopy s2 m ps ∧ chunkedCopy s1 m ps = assignCols m ps := by
  constructor
  · rw [chunkedCopy_eq_assignCols, chunkedCopy_eq_assignCols]
  · exact chunkedCopy_eq_assignCols s1 m ps

theorem chunked_copy_equivalence_witness :
    1 ≤ 2000 ∧ 1 ≤ 1 ∧
    (chunkedCopy 2000 ⟨1, 3, fun _ _ => 0⟩ [(0, fun _ => 7), (2, fun _ => 9)] =
      chunkedCopy 1 ⟨1, 3, fun _ _ => 0⟩ [(0, fun _ => 7), (2, fun _ => 9)] ∧
     chunkedCopy 2000 ⟨1, 3, fun _ _ => 0⟩ [(0, fun _ => 7), (2, fun _ => 9)] =
      assignCols ⟨1, 3, fun _ _ => 0⟩ [(0, fun _ => 7), (2, fun _ => 9)]) :=
  ⟨by decide, by decide,
   chunked_copy_equivalence 2000 1 ⟨1, 3, fun _ _ => 0⟩ [(0, fun _ => 7), (2, fun _ => 9)]
     (by decide) (by decide)⟩

/-- C9 counterexample: an input sharing no identifier with the reference
(`["g1"]` vs reference `["r1"]`, zero recoverable features), yet
`_prepare_data_matrix` returns successfully — the code contains no
`FeatureSpaceMismatch` (or any zero-overlap) check, so the claimed failure
does not happen. -/
theorem zero_overlap_no_failure_cex :
    isOkE (prepareDataMatrix false ⟨1, 1, fun _ _ => 5⟩ [0] false ["g1"] ["r1"]) = true := rfl

/-- C9 amended: when the input shares no identifier with the reference, the remap path
of `_prepare_data_matrix` raises no error and returns the all-zero matrix of width
`N_ref = ref.length`. -/
theorem zero_overlap_returns_zero_matrix (X : SMat) (idx : List ℕ) (dataIds ref : List String)
    (h : keptIdx dataIds ref = []) :
    prepareDataMatrix false X idx false dataIds ref =
      Except.ok { rows := idx.length, cols := ref.length, entry := fun _ _ => 0 } := by
  have hm : mapIdx dataIds ref = [] := by rw [mapIdx, h]; rfl
  simp [prepareDataMatrix, prepareDataMatrixMem, remap, hm, h, chunkedCopy, rowSlice]

theorem zero_overlap_returns_zero_matrix_witness :
    keptIdx ["g1"] ["r1"] = [] ∧
    prepareDataMatrix false ⟨1, 1, fun _ _ => 5⟩ [0] false ["g1"] ["r1"] =
      Except.ok { rows := 1, cols := 1, entry := fun _ _ => 0 } :=
  ⟨by decide, zero_overlap_returns_zero_matrix ⟨1, 1, fun _ _ => 5⟩ [0] ["g1"] ["r1"] (by decide)⟩

/-! ### Label encoder (`EstimatorKerasCelltype._get_celltype_out`) -/

/-- An ontology grouping: an alias-label ↦ leaf-class-identifier-list mapping
(a Python dict, looked up by key). -/
def Ont : Type := List (String × List String)

/-- `label in self.ontology[ont].keys()` / `self.ontology[ont][label]`. -/
def ontLookup (o : Ont) (label : String) : Option (List String) :=
  (o.find? (fun p => p.1 == label)).map Prod.snd

/-- Number of output columns: `ntypes` when some id lower-cases to "unknown",
else `ntypes + 1` (one extra column for the implicit unknown class). -/
def typeClasses (ids : List String) : ℕ :=
  if ids.any (fun x => x.toLower == "unknown") then ids.length else ids.length + 1

/-- True when grouping `o` knows `label` and lists `id` among its leaf nodes. -/
def leafHit (o : Ont) (label id : String) : Bool :=
  match ontLookup o label with
  | some leaves => decide (id ∈ leaves)
  | none => false

/-- One pass of the ontology loop body: when grouping `o` knows `label`, set a 1 at
every column whose identifier is one of its leaf nodes
(`y[i, np.where([jj in leave_nodes for jj in ids])[0]] = 1.`), else leave the row. -/
def ontStep (ids : List String) (label : String) (row : ℕ → ℚ) (o : Ont) : ℕ → ℚ :=
  match ontLookup o label with
  | some leaves => fun j => if j < ids.length ∧ ids.getD j "" ∈ leaves then 1 else row j
  | none => row

theorem ontStep_some_apply {o : Ont} {label : String} {leaves : List String}
    (h : ontLookup o label = some leaves) (ids : List String) (row : ℕ → ℚ) (j : ℕ) :
    ontStep ids label row o j =
      if j < ids.length ∧ ids.getD j "" ∈ leaves then 1 else row j := by
  rw [ontStep, h]

theorem ontStep_none_apply {o : Ont} {label : String}
    (h : ontLookup o label = none) (ids : List String) (row : ℕ → ℚ) (j : ℕ) :
    ontStep ids label row o j = row j := by
  rw [ontStep, h]

/-- One row of the one-hot output tensor `y` for an observation labelled `label`:
a known class identifier gets a single 1 at its column (`y[i, ids.index(label)] = 1`);
otherwise, if no ontology grouping knows the label, raise; otherwise set a 1 at every
column whose identifier is a leaf node of each matching grouping (row starts as zeros). -/
def labelRow (ids : List String) (onts : List Ont) (label : String) :
    Except String (ℕ → ℚ) :=
  if label ∈ ids then
    Except.ok (fun j => if j = ids.indexOf label then 1 else 0)
  else if onts.all (fun o => (ontLookup o label).isNone) then
    Except.error (label ++ " not found in cell type universe and ontology sets")
  else
    Except.ok (onts.foldl (ontStep ids label) (fun _ => 0))

/-- The row actually produced (zero row when the encoder raised). -/
def labelRowD (ids : List String) (onts : List Ont) (label : String) : ℕ → ℚ :=
  (labelRow ids onts label).toOption.getD (fun _ => 0)

/-- The columns the ontology fallback sets to 1: positions whose class identifier is a
leaf node of some grouping that knows `label`. -/
def matchedLeafCols (ids : List String) (onts : List Ont) (label : String) : List ℕ :=
  (List.range ids.length).filter (fun j => onts.any (fun o => leafHit o label (ids.getD j "")))

theorem labelRow_fold_entry (ids : List String) (label : String) (onts : List Ont) :
    ∀ (row0 : ℕ → ℚ) (j : ℕ),
      (onts.foldl (ontStep ids label) row0) j =
      if j < ids.length ∧ (onts.any (fun o => leafHit o label (ids.getD j ""))) = true
      then 1 else row0 j := by
  induction onts with
  | nil =>
    intro row0 j
    simp
  | cons o os ih =>
    intro row0 j
    rw [List.foldl_cons, ih]
    rw [List.any_cons]
    by_cases hj : j < ids.length
    · by_cases ha : (os.any (fun o => leafHit o label (ids.getD j ""))) = true
      · rw [if_pos ⟨hj, ha⟩, if_pos ⟨hj, by rw [ha, Bool.or_true]⟩]
      · rw [if_neg (fun hc => ha hc.2)]
        cases hb : leafHit o label (ids.getD j "") with
        | true =>
          rw [if_pos ⟨hj, by rw [Bool.true_or]⟩]
          cases ho : ontLookup o label with
          | some leaves =>
            simp only [leafHit, ho] at hb
            rw [ontStep_some_apply ho]
            rw [if_pos ⟨hj, of_decide_eq_true hb⟩]
          | none =>
            simp only [leafHit, ho] at hb
            exact Bool.noConfusion hb
        | false =>
          rw [if_neg (fun hc => ha (by simpa using hc.2))]
          cases ho : ontLookup o label with
          | some leaves =>
            simp only [leafHit, ho] at hb
            rw [ontStep_some_apply ho]
            rw [if_neg (fun hc => Bool.noConfusion (hb ▸ decide_eq_true hc.2))]
          | none => rw [ontStep_none_apply ho]
    · rw [if_neg (fun hc => hj hc.1), if_neg (fun hc => hj hc.1)]
      cases ho : ontLookup o label with
      | some leaves =>
        rw [ontStep_some_apply ho]
        rw [if_neg (fun hc => hj hc.1)]
      | none => rw [ontStep_none_apply ho]

theorem mem_matchedLeafCols {ids : List String} {onts : List Ont} {label : String} {j : ℕ} :
    j ∈ matchedLeafCols ids onts label ↔
      j < ids.length ∧ (onts.any (fun o => leafHit o label (ids.getD j ""))) = true := by
  simp [matchedLeafCols, List.mem_filter, List.mem_range]

/-- C4: label-row construction.  A label that is a known class identifier yields a
standard one-hot row (single 1 at its class column); a label known only to the
ontology groupings yields a multi-hot row with a 1 (not 1/k) in exactly the matching
leaf columns `matchedLeafCols` (a duplicate-free position list); a label known to
neither raises the unknown-label error. -/
theorem celltype_label_row_construction (ids : List String) (onts : List Ont)
    (label : String) :
    (label ∈ ids →
      labelRow ids onts label = Except.ok (fun j => if j = ids.indexOf label then 1 else 0)) ∧
    (label ∉ ids → (onts.any (fun o => (ontLookup o label).isSome)) = true →
      isOkE (labelRow ids onts label) = true ∧
      (∀ j, labelRowD ids onts label j =
        if j ∈ matchedLeafCols ids onts label then 1 else 0) ∧
      (matchedLeafCols ids onts label).Nodup) ∧
    (label ∉ ids → (onts.all (fun o => (ontLookup o label).isNone)) = true →
      labelRow ids onts label =
        Except.error (label ++ " not found in cell type universe and ontology sets")) := by
  refine ⟨fun h => by simp [labelRow, h], fun h hsome => ?_, fun h hnone => by
    simp [labelRow, h, hnone]⟩
  have hnotall : ¬ ((onts.all (fun o => (ontLookup o label).isNone)) = true) := by
    intro hall
    rw [List.all_eq_true] at hall
    rw [List.any_eq_true] at hsome
    obtain ⟨o, ho, hs⟩ := hsome
    have h2 := hall o ho
    rw [Option.isNone_iff_eq_none] at h2
    rw [h2] at hs
    exact Bool.noConfusion hs
  have hrow : labelRow ids onts label =
      Except.ok (onts.foldl (ontStep ids label) (fun _ => 0)) := by
    simp [labelRow, h, hnotall]
  refine ⟨by rw [hrow]; rfl, fun j => ?_, (List.nodup_range _).filter _⟩
  rw [labelRowD, hrow]
  simp only [Except.toOption, Option.getD_some]
  rw [labelRow_fold_entry]
  by_cases hm : j ∈ matchedLeafCols ids onts label
  · rw [if_pos (mem_matchedLeafCols.mp hm), if_pos hm]
  · rw [if_neg (fun hc => hm (mem_matchedLeafCols.mpr hc)), if_neg hm]

theorem celltype_label_row_construction_witness :
    (labelRow ["unknown", "tcell"] [] "tcell" =
      Except.ok (fun j => if j = (["unknown", "tcell"] : List String).indexOf "tcell"
        then 1 else 0)) ∧
    (isOkE (labelRow ["unknown", "tcell"] [[("tc", ["tcell"])]] "tc") = true ∧
      (∀ j, labelRowD ["unknown", "tcell"] [[("tc", ["tcell"])]] "tc" j =
        if j ∈ matchedLeafCols ["unknown", "tcell"] [[("tc", ["tcell"])]] "tc"
        then 1 else 0) ∧
      (matchedLeafCols ["unknown", "tcell"] [[("tc", ["tcell"])]] "tc").Nodup) ∧
    (labelRow ["unknown", "tcell"] [] "martian" =
      Except.error ("martian" ++ " not found in cell type universe and ontology sets")) :=
  ⟨(celltype_label_row_construction ["unknown", "tcell"] [] "tcell").1 (by decide),
   (celltype_label_row_construction ["unknown", "tcell"] [[("tc", ["tcell"])]] "tc").2.1
     (by decide) (by decide),
   (celltype_label_row_construction ["unknown", "tcell"] [] "martian").2.2
     (by decide) (by decide)⟩

/-- The loop of `_get_celltype_out` over the observations of `idx`: build one label
row per observation, raising at the first unknown label. -/
def labelRowsFor (ids : List String) (onts : List Ont) (labels : List String) :
    List ℕ → Except String (List (ℕ → ℚ))
  | [] => Except.ok []
  | x :: xs => do
    let r ← labelRow ids onts (labels.getD x "")
    let rs ← labelRowsFor ids onts labels xs
    Except.ok (r :: rs)

theorem labelRowsFor_length (ids : List String) (onts : List Ont) (labels : List String) :
    ∀ (idx : List ℕ) (rows : List (ℕ → ℚ)),
      labelRowsFor ids onts labels idx = Except.ok rows → rows.length = idx.length := by
  intro idx
  induction idx with
  | nil =>
    intro rows h
    cases h
    rfl
  | cons x xs ih =>
    intro rows h
    rw [labelRowsFor] at h
    cases hr : labelRow ids onts (labels.getD x "") with
    | error e =>
      rw [hr] at h
      exact Except.noConfusion h
    | ok r =>
      rw [hr] at h
      cases hrs : labelRowsFor ids onts labels xs with
      | error e =>
        rw [hrs] at h
        exact Except.noConfusion h
      | ok rs =>
        rw [hrs] at h
        have hh : r :: rs = rows := Except.ok.inj h
        rw [← hh]
        simp [ih rs hrs]

/-- `np.sum(y, axis=1)` for one row over the `typeClasses` columns. -/
def rowSumY (c : ℕ) (row : ℕ → ℚ) : ℚ := ∑ j in Finset.range c, row j

/-- `freq = np.mean(y / np.sum(y, axis=1, keepdims=True), axis=0, keepdims=True)`. -/
def freqVec (rows : List (ℕ → ℚ)) (c : ℕ) : ℕ → ℚ :=
  fun j => (∑ i in Finset.range rows.length,
    (rows.getD i (fun _ => 0)) j / rowSumY c (rows.getD i (fun _ => 0))) / rows.length

/-- One entry of `weights = np.minimum(1. / np.matmul(y, freq.T), max_class_weight)`. -/
def weightOf (c : ℕ) (freq : ℕ → ℚ) (maxW : ℚ) (row : ℕ → ℚ) : ℚ :=
  min (1 / ∑ j in Finset.range c, row j * freq j) maxW

/-- `EstimatorKerasCelltype._get_celltype_out`: one-hot rows for the observations of
`idx` (observation `x` carries label `labels[x]`), then the frequency vector and the
thresholded observation-wise weights. -/
def getCelltypeOut (ids : List String) (onts : List Ont) (labels : List String)
    (maxW : ℚ) (idx : List ℕ) : Except String ((ℕ → ℚ) × (ℕ → ℕ → ℚ)) := do
  let rows ← labelRowsFor ids onts labels idx
  Except.ok (fun i => weightOf (typeClasses ids) (freqVec rows (typeClasses ids)) maxW
               (rows.getD i (fun _ => 0)),
             fun i j => (rows.getD i (fun _ => 0)) j)

/-- The (weights, y) pair actually produced (zeros when the encoder raised). -/
def getCelltypeOutD (ids : List String) (onts : List Ont) (labels : List String)
    (maxW : ℚ) (idx : List ℕ) : (ℕ → ℚ) × (ℕ → ℕ → ℚ) :=
  (getCelltypeOut ids onts labels maxW idx).toOption.getD (fun _ => 0, fun _ _ => 0)

/-- Modelled from the spec: the mean-row-frequency vector, i.e. the column-wise mean
over the `n` observations of each row divided by its own row sum. -/
def specMeanRowFreq (n c : ℕ) (y : ℕ → ℕ → ℚ) : ℕ → ℚ :=
  fun j => (∑ i in Finset.range n, y i j / ∑ k in Finset.range c, y i k) / n

/-- C5: class-weight formula.  Whenever `_get_celltype_out` succeeds, the weight of
observation `i` is `min(1 / (y_i ⋅ f), max_class_weight)` where `f` is the spec's
mean-row-frequency vector (column-wise mean of the row-normalized label rows). -/
theorem class_weight_formula (ids : List String) (onts : List Ont) (labels : List String)
    (maxW : ℚ) (idx : List ℕ)
    (h : isOkE (getCelltypeOut ids onts labels maxW idx) = true) (i : ℕ) :
    (getCelltypeOutD ids onts labels maxW idx).1 i =
      min (1 / ∑ j in Finset.range (typeClasses ids),
        (getCelltypeOutD ids onts labels maxW idx).2 i j *
          specMeanRowFreq idx.length (typeClasses ids)
            (getCelltypeOutD ids onts labels maxW idx).2 j)
        maxW := by
  cases hr : labelRowsFor ids onts labels idx with
  | error e =>
    exfalso
    have hfalse : isOkE (getCelltypeOut ids onts labels maxW idx) = false := by
      rw [getCelltypeOut, hr]
      rfl
    rw [hfalse] at h
    exact Bool.noConfusion h
  | ok rows =>
    have hD : getCelltypeOutD ids onts labels maxW idx =
        (fun i => weightOf (typeClasses ids) (freqVec rows (typeClasses ids)) maxW
           (rows.getD i (fun _ => 0)),
         fun i j => (rows.getD i (fun _ => 0)) j) := by
      rw [getCelltypeOutD, getCelltypeOut, hr]
      rfl
    rw [hD]
    have hlen := labelRowsFor_length ids onts labels idx rows hr
    simp only [weightOf, freqVec, rowSumY, specMeanRowFreq, hlen]

theorem class_weight_formula_witness :
    isOkE (getCelltypeOut ["unknown", "a"] [] ["a"] 10 [0]) = true ∧
    (getCelltypeOutD ["unknown", "a"] [] ["a"] 10 [0]).1 0 =
      min (1 / ∑ j in Finset.range (typeClasses ["unknown", "a"]),
        (getCelltypeOutD ["unknown", "a"] [] ["a"] 10 [0]).2 0 j *
          specMeanRowFreq ([0] : List ℕ).length (typeClasses ["unknown", "a"])
            (getCelltypeOutD ["unknown", "a"] [] ["a"] 10 [0]).2 j)
        10 :=
  ⟨rfl, class_weight_formula ["unknown", "a"] [] ["a"] 10 [0] rfl 0⟩

/-! ### Weights loading (`EstimatorKeras.load_pretrained_weights`, `_assert_md5_sum`) -/

/-- `_assert_md5_sum`: compute the file's hex digest and require `hsh == target_md5`.
Python `str == None` is `False`, modelled by `Option.none` comparing unequal. -/
def assertMd5Sum (digest : String) (target : Option String) : Except String Unit :=
  if (match target with
      | some t => digest == t
      | none => false) then Except.ok ()
  else Except.error "md5 did not match expectation"

/-- The dispatch tail of `load_pretrained_weights`: try `fn.h5`, then the sharded
`fn.data-00000-of-00001`, then a bare `fn`; the first two verify the md5 before
loading, the last raises, and a missing file raises. -/
def loadPretrainedWeights (existsH5 existsSharded existsBare : Bool)
    (digest : String) (md5 : Option String) : Except String String := do
  if existsH5 then
    let _ ← assertMd5Sum digest md5
    Except.ok "loaded h5 weights"
  else if existsSharded then
    let _ ← assertMd5Sum digest md5
    Except.ok "loaded sharded weights"
  else if existsBare then
    Except.error "weights files saved in h5 format need to have an h5 file extension"
  else
    Except.error "the weightsfile could not be found"

/-- C10: with `weights_md5 = None` (the default), whenever a weights file exists at the
resolved path, `load_pretrained_weights` raises: the md5 assertion compares the hex
digest string against `None` and can never pass. -/
theorem load_weights_md5_none_fails (existsH5 existsSharded existsBare : Bool)
    (digest : String) (h : existsH5 = true ∨ existsSharded = true) :
    loadPretrainedWeights existsH5 existsSharded existsBare digest none =
      Except.error "md5 did not match expectation" := by
  cases existsH5 with
  | true => rfl
  | false =>
    cases existsSharded with
    | true => rfl
    | false => rcases h with h | h <;> exact absurd h (by simp)

theorem load_weights_md5_none_fails_witness :
    ((true : Bool) = true ∨ (false : Bool) = true) ∧
    loadPretrainedWeights true false false "0123abcd" none =
      Except.error "md5 did not match expectation" :=
  ⟨Or.inl rfl, load_weights_md5_none_fails true false false "0123abcd" (Or.inl rfl)⟩

/-! ### Streaming dataset builder (`EstimatorKerasCelltype._get_dataset`) -/

/-- The classifier training stream: feature count, the generator's element sequence
(features row, target row, weight), and the shuffle buffer size. -/
structure CelltypeTrainDS where
  nFeatures : ℕ
  elems : List ((ℕ → ℚ) × (ℕ → ℚ) × ℚ)
  bufferSize : ℕ

/-- `EstimatorKerasCelltype._get_dataset`, `mode == 'train'`: build `(weights, y)`,
then either the in-memory generator over `_prepare_data_matrix` rows or the backed
generator over `data.X[ii, :]` rows, then
`dataset.repeat().shuffle(buffer_size=min(x.shape[0], shuffle_buffer_size))…`.
The local `x` is assigned only on the in-memory branch; the backed branch leaves it
unbound (`Option.none` here), and evaluating `x.shape[0]` for the shuffle buffer then
raises `UnboundLocalError`. -/
def celltypeGetDatasetTrain (backed : Bool) (X : SMat) (idx : List ℕ)
    (mappedFeatures : Bool) (dataIds ref : List String)
    (ids : List String) (onts : List Ont) (labels : List String) (maxW : ℚ)
    (weighted : Bool) (shuffleBufferSize : ℕ) : Except String CelltypeTrainDS := do
  let wy ← getCelltypeOut ids onts labels maxW idx
  let w : ℕ → ℚ := if weighted then wy.1 else fun _ => 1
  let branch : Option SMat × ℕ × List ((ℕ → ℚ) × (ℕ → ℚ) × ℚ) :=
    if backed = false then
      let x := prepareDataMatrixMem X idx mappedFeatures dataIds ref
      (some x, x.cols,
       (List.range idx.length).map
         (fun i => (fun c => x.entry i c, fun j => wy.2 i j, w i)))
    else
      (none, X.cols,
       (List.range idx.length).map
         (fun i => (fun c => X.entry (idx.getD i 0) c, fun j => wy.2 i j, w i)))
  match branch.1 with
  | some x =>
      Except.ok { nFeatures := branch.2.1, elems := branch.2.2,
                  bufferSize := min x.rows shuffleBufferSize }
  | none => Except.error "UnboundLocalError: local variable x referenced before assignment"

/-- C3 (code bug): the backed code path of the classifier training dataset builder is
not observationally equivalent to the in-memory one — it crashes.  The `train` branch
reads `x.shape[0]` for the shuffle buffer size, but `x` is assigned only on the
in-memory branch, so on a backed source every call raises `UnboundLocalError` (shown
here for a 1-observation source with known label "tcell", for every matrix, feature
mapping, and buffer size), while the in-memory path succeeds on the same data. -/
theorem celltype_backed_train_unbound_local (X : SMat) (mappedFeatures : Bool)
    (dataIds ref : List String) (sbs : ℕ) :
    celltypeGetDatasetTrain true X [0] mappedFeatures dataIds ref
      ["unknown", "tcell"] [] ["tcell"] 1000 true sbs =
      Except.error "UnboundLocalError: local variable x referenced before assignment" ∧
    isOkE (celltypeGetDatasetTrain false X [0] mappedFeatures dataIds ref
      ["unknown", "tcell"] [] ["tcell"] 1000 true sbs) = true :=
  ⟨rfl, rfl⟩

/-! ### Partitioner (`EstimatorKeras.train`: test / eval / train split) -/

/-- `all_idx = np.arange(0, self.data.shape[0])`. -/
def allIdx (n : ℕ) : List ℕ := List.range n

/-- `idx_train_eval = np.array([x for x in all_idx if x not in self.idx_test])`. -/
def idxTrainEval (n : ℕ) (test : List ℕ) : List ℕ :=
  (allIdx n).filter (fun x => decide (x ∉ test))

/-- `self.idx_train = np.array([x for x in idx_train_eval if x not in self.idx_eval])`. -/
def idxTrain (trainEval evalIdx : List ℕ) : List ℕ :=
  trainEval.filter (fun x => decide (x ∉ evalIdx))

theorem mem_idxTrainEval {n : ℕ} {test : List ℕ} {x : ℕ} :
    x ∈ idxTrainEval n test ↔ x < n ∧ x ∉ test := by
  simp [idxTrainEval, allIdx, List.mem_filter, List.mem_range]

theorem mem_idxTrain {trainEval evalIdx : List ℕ} {x : ℕ} :
    x ∈ idxTrain trainEval evalIdx ↔ x ∈ trainEval ∧ x ∉ evalIdx := by
  simp [idxTrain, List.mem_filter]

/-- C6: partition disjointness and coverage.  Both test selections —
`np.random.choice(all_idx, size, replace=False)` (fractional) and `np.where(in_test)`
(predicate-based) — return subsets of `range n`, and the eval selection
`np.random.choice(idx_train_eval, size, replace=False)` returns a subset of
`idx_train_eval`; for any such draws, the three partitions built by `train()` are
pairwise disjoint and cover `{0, …, n-1}` exactly. -/
theorem partition_disjoint_cover (n : ℕ) (test evalIdx : List ℕ)
    (htest : ∀ t ∈ test, t < n) (heval : ∀ e ∈ evalIdx, e ∈ idxTrainEval n test) :
    (∀ x ∈ idxTrain (idxTrainEval n test) evalIdx, x ∉ evalIdx) ∧
    (∀ x ∈ idxTrain (idxTrainEval n test) evalIdx, x ∉ test) ∧
    (∀ x ∈ evalIdx, x ∉ test) ∧
    (∀ x, x < n ↔
      (x ∈ idxTrain (idxTrainEval n test) evalIdx ∨ x ∈ evalIdx ∨ x ∈ test)) := by
  refine ⟨fun x hx => (mem_idxTrain.mp hx).2,
          fun x hx => (mem_idxTrainEval.mp (mem_idxTrain.mp hx).1).2,
          fun x hx => (mem_idxTrainEval.mp (heval x hx)).2,
          fun x => ⟨fun hxn => ?_, fun hx => ?_⟩⟩
  · by_cases ht : x ∈ test
    · exact Or.inr (Or.inr ht)
    · by_cases he : x ∈ evalIdx
      · exact Or.inr (Or.inl he)
      · exact Or.inl (mem_idxTrain.mpr ⟨mem_idxTrainEval.mpr ⟨hxn, ht⟩, he⟩)
  · rcases hx with hx | hx | hx
    · exact (mem_idxTrainEval.mp (mem_idxTrain.mp hx).1).1
    · exact (mem_idxTrainEval.mp (heval x hx)).1
    · exact htest x hx

theorem partition_disjoint_cover_witness :
    (∀ t ∈ ([1] : List ℕ), t < 4) ∧ (∀ e ∈ ([2] : List ℕ), e ∈ idxTrainEval 4 [1]) ∧
    ((∀ x ∈ idxTrain (idxTrainEval 4 [1]) [2], x ∉ ([2] : List ℕ)) ∧
     (∀ x ∈ idxTrain (idxTrainEval 4 [1]) [2], x ∉ ([1] : List ℕ)) ∧
     (∀ x ∈ ([2] : List ℕ), x ∉ ([1] : List ℕ)) ∧
     (∀ x, x < 4 ↔
       (x ∈ idxTrain (idxTrainEval 4 [1]) [2] ∨ x ∈ ([2] : List ℕ) ∨ x ∈ ([1] : List ℕ)))) :=
  ⟨by decide, by decide, partition_disjoint_cover 4 [1] [2] (by decide) (by decide)⟩

/-- Python 3 `round()`: banker's rounding, half to even
(`self.idx_eval` is drawn with `size=round(len(idx_train_eval) * validation_split)`). -/
def pythonRound (q : ℚ) : ℤ :=
  if q - Int.floor q < 1 / 2 then Int.floor q
  else if q - Int.floor q > 1 / 2 then Int.floor q + 1
  else if Int.floor q % 2 = 0 then Int.floor q else Int.floor q + 1

/-- The post-split checks of `train()` (lines 405–411): an empty test partition only
warns (`warnings.warn`, recorded in the returned Bool) and execution proceeds; an
empty eval partition raises; then an empty train partition raises. -/
def checkPartitions (test evalIdx train : List ℕ) : Except String Bool :=
  let warned := test.isEmpty
  if evalIdx.isEmpty then Except.error "The evaluation dataset is empty."
  else if train.isEmpty then Except.error "The train dataset is empty."
  else Except.ok warned

/-- C7: empty-partition policy.  With nonempty eval and train partitions the check
succeeds and merely records whether the test partition was empty (warning only);
an empty eval partition raises; an empty train partition raises; and
`validation_split = 0` yields `round(remaining * 0) = 0` eval members — an empty
eval partition — which raises rather than warns. -/
theorem empty_partition_policy :
    (∀ test evalIdx train : List ℕ, evalIdx ≠ [] → train ≠ [] →
      checkPartitions test evalIdx train = Except.ok test.isEmpty) ∧
    (∀ test train : List ℕ,
      checkPartitions test [] train = Except.error "The evaluation dataset is empty.") ∧
    (∀ test evalIdx : List ℕ, evalIdx ≠ [] →
      checkPartitions test evalIdx [] = Except.error "The train dataset is empty.") ∧
    (∀ (m : ℕ) (test train evalIdx : List ℕ),
      evalIdx.length = (pythonRound ((m : ℚ) * 0)).toNat →
      checkPartitions test evalIdx train = Except.error "The evaluation dataset is empty.") := by
  have hzero : ∀ m : ℕ, (pythonRound ((m : ℚ) * 0)).toNat = 0 := by
    intro m
    simp [pythonRound]
  refine ⟨fun test evalIdx train he ht => ?_, fun test train => rfl,
          fun test evalIdx he => ?_, fun m test train evalIdx hlen => ?_⟩
  · rw [checkPartitions]
    rw [if_neg (by simp [List.isEmpty_iff, he]), if_neg (by simp [List.isEmpty_iff, ht])]
  · rw [checkPartitions]
    rw [if_neg (by simp [List.isEmpty_iff, he])]
    rfl
  · rw [hzero] at hlen
    have : evalIdx = [] := List.eq_nil_of_length_eq_zero hlen
    subst this
    rfl

theorem empty_partition_policy_witness :
    (([3] : List ℕ) ≠ [] ∧ ([4] : List ℕ) ≠ [] ∧
      checkPartitions [] [3] [4] = Except.ok (List.isEmpty ([] : List ℕ))) ∧
    checkPartitions [0] [] [4] = Except.error "The evaluation dataset is empty." ∧
    (([3] : List ℕ) ≠ [] ∧
      checkPartitions [0] [3] [] = Except.error "The train dataset is empty.") ∧
    (([] : List ℕ).length = (pythonRound ((5 : ℕ) * 0 : ℚ)).toNat ∧
      checkPartitions [0] [] [4] = Except.error "The evaluation dataset is empty.") := by
  have hr : ([] : List ℕ).length = (pythonRound ((5 : ℕ) * 0 : ℚ)).toNat := by
    simp [pythonRound]
  refine ⟨⟨by decide, by decide,
            empty_partition_policy.1 [] [3] [4] (by decide) (by decide)⟩,
          empty_partition_policy.2.1 [0] [4],
          ⟨by decide, empty_partition_policy.2.2.1 [0] [3] (by decide)⟩,
          ⟨hr, empty_partition_policy.2.2.2 5 [0] [4] [] hr⟩⟩

/-! ### Backed eval/predict read (`_get_dataset`, modes eval / predict, backed branch) -/

/-- Ascending insertion, for `np.sort`. -/
def insertAsc (a : ℕ) : List ℕ → List ℕ
  | [] => [a]
  | b :: l => if a ≤ b then a :: b :: l else b :: insertAsc a l

/-- `np.sort(idx)`: the values of `idx` in ascending order. -/
def npSort (l : List ℕ) : List ℕ := l.foldr insertAsc []

/-- Insertion of position `a` into a position list ordered by the values of `l` they
index (ties broken by position — matches `np.argsort` on distinct values). -/
def insertByVal (l : List ℕ) (a : ℕ) : List ℕ → List ℕ
  | [] => [a]
  | b :: t =>
      if l.getD a 0 < l.getD b 0 ∨ (l.getD a 0 = l.getD b 0 ∧ a ≤ b)
      then a :: b :: t else b :: insertByVal l a t

/-- `np.argsort(idx)`: the positions of `idx`, ordered by the values they hold. -/
def npArgsort (l : List ℕ) : List ℕ := (List.range l.length).foldr (insertByVal l) []

/-- The backed branch of `eval`/`predict` in `_get_dataset`:
`x = self.data.X[np.sort(idx), :]` then `x = x[np.argsort(idx), :]`
(the adjacent code comment: "Sort back in original order of indices."). -/
def backedRead (X : SMat) (idx : List ℕ) : SMat :=
  { rows := idx.length, cols := X.cols,
    entry := fun i c => X.entry ((npSort idx).getD ((npArgsort idx).getD i 0) 0) c }

/-- C8 (code bug): the sorted-then-permuted read does not restore the original order
of `idx`.  For the backed source with `X[r, c] = r` and `idx = [2, 0, 1]`:
`np.sort(idx) = [0, 1, 2]` and `np.argsort(idx) = [1, 2, 0]`, so the returned row 0 is
source row 1 — but the claim (and the code's own comment) require source row
`idx[0] = 2`.  Row `i` is actually source row `idx[p[p[i]]]` with `p = argsort(idx)`;
the correct restore would index with `argsort(argsort(idx))`. -/
theorem backed_restore_misorders :
    (backedRead ⟨3, 1, fun r _ => (r : ℚ)⟩ [2, 0, 1]).entry 0 0 = 1 ∧
    (⟨3, 1, fun r _ => (r : ℚ)⟩ : SMat).entry (([2, 0, 1] : List ℕ).getD 0 0) 0 = 2 ∧
    ¬ (∀ i, i < 3 → (backedRead ⟨3, 1, fun r _ => (r : ℚ)⟩ [2, 0, 1]).entry i 0 =
        (⟨3, 1, fun r _ => (r : ℚ)⟩ : SMat).entry (([2, 0, 1] : List ℕ).getD i 0) 0) := by
  refine ⟨by decide, by decide, fun hall => ?_⟩
  have h0 := hall 0 (by decide)
  revert h0
  decide

end Sfaira
